import Mathlib

/-!
Verification of the ETL core of the Duel Advocacy Platform.

The definitions below are a shallow embedding of the TypeScript source:
JavaScript numbers are modelled as `Int`, a JS `Map` as an insertion-ordered
association list (`mapGet` / `mapSet`), optional or nullable fields as
`Option`, and JS truthiness is made explicit where the source relies on it.
The embedded functions follow `src/etl/pipeline.ts` and
`src/etl/transformer.ts` line by line.
-/

namespace Duel

/-- Canonical social handle, field for field the `SocialHandle` type of the
source (`platform` is one of a fixed enumeration, kept as `String`). -/
structure SocialHandle where
  platform : String
  handle : String
  deriving DecidableEq, Repr

/-- Canonical social post, field for field the `SocialPost` type of the
source. Numeric fields are JS numbers, modelled as `Int`. -/
structure SocialPost where
  postId : String
  platform : String
  url : Option String
  likes : Int
  comments : Int
  shares : Int
  reach : Int
  engagement : Int
  deriving DecidableEq, Repr

/-- Canonical program membership, field for field the `Program` type of the
source. -/
structure Program where
  programId : String
  programName : String
  deriving DecidableEq, Repr

/-- Canonical sales attribution, field for field the `SalesAttribution`
type of the source. -/
structure SalesAttribution where
  programId : String
  amount : Int
  deriving DecidableEq, Repr

/-- Canonical user entity, field for field the `User` type of the source. -/
structure User where
  userId : String
  name : Option String
  email : Option String
  socialHandles : List SocialHandle
  programs : List Program
  posts : List SocialPost
  salesAttributions : List SalesAttribution
  joinDate : Option Int
  totalEngagement : Int
  totalSales : Int
  deriving DecidableEq, Repr

/-- Lookup in a JS `Map` modelled as an insertion-ordered association
list. -/
def mapGet {α : Type} (m : List (String × α)) (k : String) : Option α :=
  match m with
  | [] => none
  | (k', v) :: rest => if k' = k then some v else mapGet rest k

/-- `Map.set`: updates the value in place when the key is present (keeping
its insertion position), otherwise appends the new binding at the end. -/
def mapSet {α : Type} (m : List (String × α)) (k : String) (v : α) :
    List (String × α) :=
  match m with
  | [] => [(k, v)]
  | (k', v') :: rest =>
    if k' = k then (k', v) :: rest else (k', v') :: mapSet rest k v

/-- The keys of a modelled map, in insertion order. -/
def mapKeys {α : Type} (m : List (String × α)) : List String :=
  m.map Prod.fst

/-- JS truthiness of an optional string field: `undefined` or `null`
(modelled as `none`) and the empty string are falsy. -/
def strTruthy : Option String → Bool
  | none => false
  | some s => s != ""

/-- The JS expression `a || b` on optional string fields. -/
def jsOrStr (a b : Option String) : Option String :=
  if strTruthy a then a else b

/-- The JS expression `a || undefined` on an optional string field: an
empty string collapses to `none`. -/
def jsOrUndef (a : Option String) : Option String :=
  if strTruthy a then a else none

/-- The map key used by `deduplicateSocialHandles` in `pipeline.ts`. -/
def handleKey (handle : SocialHandle) : String :=
  handle.platform ++ (":") ++ handle.handle

/-- One step of a keep-first deduplication loop: insert under the key when
absent, otherwise leave the map unchanged. This is the loop body shared by
`deduplicateSocialHandles` and `deduplicatePrograms` in `pipeline.ts`. -/
def keepFirstStep {α : Type} (key : α → String)
    (seen : List (String × α)) (x : α) : List (String × α) :=
  match mapGet seen (key x) with
  | none => mapSet seen (key x) x
  | some _ => seen

/-- `deduplicateSocialHandles` of `pipeline.ts`: keep the first handle for
each `platform:handle` key. -/
def deduplicateSocialHandles (handles : List SocialHandle) :
    List SocialHandle :=
  (handles.foldl (keepFirstStep handleKey) []).map Prod.snd

/-- `deduplicatePrograms` of `pipeline.ts`: keep the first program for each
`programId`. -/
def deduplicatePrograms (programs : List Program) : List Program :=
  (programs.foldl (keepFirstStep Program.programId) []).map Prod.snd

/-- Loop body of `deduplicatePosts` in `pipeline.ts`: on a repeated
`postId`, keep the post with the strictly higher engagement (the stored
one on ties). -/
def postsStep (seen : List (String × SocialPost)) (post : SocialPost) :
    List (String × SocialPost) :=
  match mapGet seen post.postId with
  | none => mapSet seen post.postId post
  | some existing =>
    if post.engagement > existing.engagement then
      mapSet seen post.postId post
    else seen

/-- `deduplicatePosts` of `pipeline.ts`. -/
def deduplicatePosts (posts : List SocialPost) : List SocialPost :=
  (posts.foldl postsStep []).map Prod.snd

/-- Loop body of `deduplicateSalesAttributions` in `pipeline.ts`: amounts
for the same `programId` are accumulated (`current + attribution.amount`
with `current` defaulting to 0). -/
def salesStep (salesMap : List (String × Int)) (attribution : SalesAttribution) :
    List (String × Int) :=
  mapSet salesMap attribution.programId
    ((mapGet salesMap attribution.programId).getD 0 + attribution.amount)

/-- `deduplicateSalesAttributions` of `pipeline.ts`: fold the attributions
into a map from `programId` to summed amount, then read the entries back
as records. -/
def deduplicateSalesAttributions (attributions : List SalesAttribution) :
    List SalesAttribution :=
  ((attributions.foldl salesStep []).map
    (fun e => ({ programId := e.1, amount := e.2 } : SalesAttribution)))

/-- `calculateCompletenessScore` of `pipeline.ts`. The three `if` checks
are JS truthiness tests: an empty name or email does not score. -/
def calculateCompletenessScore (user : User) : Int :=
  (if strTruthy user.name then 1 else 0)
  + (if strTruthy user.email then 1 else 0)
  + (if user.joinDate.isSome then 1 else 0)
  + user.socialHandles.length * 2
  + user.programs.length * 3
  + user.posts.length
  + user.salesAttributions.length * 5
  + user.totalEngagement
  + user.totalSales

/-- `mergeUsers` of `pipeline.ts`: keep the identifier of the first
operand, take the first truthy name, email and join date, dedupe the
concatenated collections, and zero the totals (recalculated later). -/
def mergeUsers (user1 user2 : User) : User :=
  { userId := user1.userId
    name := jsOrStr user1.name user2.name
    email := jsOrStr user1.email user2.email
    joinDate := if user1.joinDate.isSome then user1.joinDate else user2.joinDate
    socialHandles :=
      deduplicateSocialHandles (user1.socialHandles ++ user2.socialHandles)
    programs := deduplicatePrograms (user1.programs ++ user2.programs)
    posts := deduplicatePosts (user1.posts ++ user2.posts)
    salesAttributions :=
      deduplicateSalesAttributions
        (user1.salesAttributions ++ user2.salesAttributions)
    totalEngagement := 0
    totalSales := 0 }

/-- Loop body of `deduplicateUsers` in `pipeline.ts`: first occurrence is
inserted; a strictly higher completeness score replaces; an equal score
merges; a lower score is discarded. -/
def usersStep (userMap : List (String × User)) (user : User) :
    List (String × User) :=
  match mapGet userMap user.userId with
  | none => mapSet userMap user.userId user
  | some existing =>
    let existingScore := calculateCompletenessScore existing
    let newScore := calculateCompletenessScore user
    if newScore > existingScore then mapSet userMap user.userId user
    else if newScore = existingScore then
      mapSet userMap user.userId (mergeUsers existing user)
    else userMap

/-- `deduplicateUsers` of `pipeline.ts`. -/
def deduplicateUsers (users : List User) : List User :=
  (users.foldl usersStep []).map Prod.snd

/-- `recalculateTotals` of `pipeline.ts`: overwrite both totals with the
reductions over the current posts and sales attributions. -/
def recalculateTotals (user : User) : User :=
  { user with
    totalEngagement :=
      user.posts.foldl (fun sum post => sum + post.engagement) 0
    totalSales :=
      user.salesAttributions.foldl (fun sum sale => sum + sale.amount) 0 }

/-! ### Transformer (`src/etl/transformer.ts`)

The transformer runs on data already accepted by `validateUser`
(`src/etl/validator.ts`): acceptance by the flexible zod schema means every
field has one of the shapes below, so validator acceptance is modelled by
membership in the `Raw*` types. Nullable-or-absent fields collapse to
`Option` (the transformer tests them with the same truthiness checks
either way); numeric fields that went through `Number(...)` coercion are
modelled by `RawNum`. The synthetic id generator
(`Date.now()` and `Math.random()`) is modelled by an explicit `gen`
suffix argument, and JS `new Date(string)` parsing by an explicit
`dateParse` argument (returning `none` for an invalid date). -/

/-- A raw numeric field after validation: absent, `null`, a number, or a
value whose `Number(...)` coercion is `NaN`. -/
inductive RawNum where
  | missing
  | null
  | num (n : Int)
  | nan
  deriving DecidableEq, Repr

/-- JS `Number(x)` on a raw numeric field; `none` stands for `NaN`. -/
def jsNumber : RawNum → Option Int
  | .missing => none
  | .null => some 0
  | .num n => some n
  | .nan => none

/-- A raw `joined_at` value: a string, a JS number, or a `Date` instance
(modelled by its epoch milliseconds). -/
inductive RawDate where
  | str (s : String)
  | num (n : Int)
  | date (millis : Int)
  deriving DecidableEq, Repr

/-- JS truthiness of a `joined_at` value: the empty string and the number
0 are falsy; a `Date` instance is always truthy. -/
def rawDateTruthy : RawDate → Bool
  | .str s => s != ""
  | .num n => n != 0
  | .date _ => true

/-- `parseTimestamp` of `transformer.ts`. The result is the epoch
milliseconds of the parsed date, `none` when no date is produced. The
falsy guard `if (!value) return undefined` comes first; numbers above
10000000000 are taken as milliseconds, all others multiplied by 1000;
strings go through general date parsing (`dateParse`). -/
def parseTimestamp (dateParse : String → Option Int)
    (value : Option RawDate) : Option Int :=
  match value with
  | none => none
  | some v =>
    if rawDateTruthy v then
      match v with
      | .date millis => some millis
      | .num n => some (if n > 10000000000 then n else n * 1000)
      | .str s => dateParse s
    else none

/-- JS whitespace test for the characters relevant to `trim`. -/
def jsWhitespace (c : Char) : Bool :=
  c = (' ') || c = ('\t') || c = ('\n') || c = ('\r')

/-- JS `String.prototype.trim`, modelled on the character list. -/
def jsTrim (s : String) : String :=
  String.mk
    (((s.toList.dropWhile jsWhitespace).reverse.dropWhile
      jsWhitespace).reverse)

/-- JS `String.prototype.toLowerCase`, modelled on the character list. -/
def jsToLower (s : String) : String :=
  String.mk (s.toList.map Char.toLower)

/-- `normalizeSocialHandle` of `transformer.ts`: strip the leading run of
`@` characters, lower-case, trim. -/
def normalizeSocialHandle (handle : String) : String :=
  jsTrim (jsToLower (String.mk (handle.toList.dropWhile (fun c => c = ('@')))))

/-- `calculateEngagement` of `transformer.ts`. The source reads
`post.likes || 0` on a `Partial` record whose numeric fields are always
present at the call site, so the `|| 0` is the identity here. -/
def calculateEngagement (post : SocialPost) : Int :=
  post.likes + post.comments + post.shares

/-- A raw handle entry handed to `transformSocialHandles` (built in
`transformUser` from the direct `instagram_handle` / `tiktok_handle`
fields). -/
structure RawHandle where
  platform : String
  handle : Option String
  deriving DecidableEq, Repr

/-- `transformSocialHandles` of `transformer.ts`: normalize each handle
(empty when absent), then drop entries whose handle or platform is
falsy. The object filter of the source is vacuous on validated data. -/
def transformSocialHandles (handles : List RawHandle) : List SocialHandle :=
  if handles.length = 0 then []
  else
    ((handles.map (fun handle =>
      ({ platform := handle.platform
         handle :=
           match handle.handle with
           | some rawHandle =>
             if rawHandle != "" then normalizeSocialHandle rawHandle else ""
           | none => "" } : SocialHandle))).filter
      (fun h => h.handle != "" && h.platform != ""))

/-- A raw post (`tasks_completed` entry) after validation. -/
structure RawPost where
  task_id : Option String
  platform : Option String
  post_url : Option String
  likes : RawNum
  comments : RawNum
  shares : RawNum
  reach : RawNum
  deriving DecidableEq, Repr

/-- The per-post mapping inside `transformSocialPosts` of
`transformer.ts`: synthesize `task_<gen>` for a missing or blank id,
default the platform to `other`, blank urls to `undefined`, coerce the
numeric fields with `isNaN(x) ? 0 : x`, then recompute `engagement`. -/
def transformOnePost (gen : String) (post : RawPost) : SocialPost :=
  let finalTaskId :=
    match post.task_id with
    | some taskId =>
      if taskId != "" && jsTrim taskId != "" then taskId else ("task_") ++ gen
    | none => ("task_") ++ gen
  let finalPlatform :=
    match post.platform with
    | some platform => if platform != "" then platform else ("other")
    | none => ("other")
  let finalUrl :=
    match post.post_url with
    | some postUrl =>
      if postUrl != "" && jsTrim postUrl != "" then some postUrl else none
    | none => none
  let transformed : SocialPost :=
    { postId := finalTaskId
      platform := finalPlatform
      url := finalUrl
      likes := (jsNumber post.likes).getD 0
      comments := (jsNumber post.comments).getD 0
      shares := (jsNumber post.shares).getD 0
      reach := (jsNumber post.reach).getD 0
      engagement := 0 }
  { transformed with engagement := calculateEngagement transformed }

/-- `transformSocialPosts` of `transformer.ts`: map each raw post and
filter on truthy `postId` and `platform`. -/
def transformSocialPosts (gen : String) (posts : Option (List RawPost)) :
    List SocialPost :=
  match posts with
  | none => []
  | some ps =>
    if ps.length = 0 then []
    else
      ((ps.map (transformOnePost gen)).filter
        (fun p => p.postId != "" && p.platform != ""))

/-- `createSalesAttribution` of `transformer.ts`. -/
def createSalesAttribution (programId : String) (amount : Int) :
    SalesAttribution :=
  { programId := programId, amount := amount }

/-- A raw advocacy program entry after validation. -/
structure RawProgram where
  program_id : Option String
  brand : Option String
  tasks_completed : Option (List RawPost)
  total_sales_attributed : RawNum
  deriving DecidableEq, Repr

/-- The per-program mapping inside `transformPrograms` of
`transformer.ts`: synthesize `program_<gen>` for a missing or blank id and
fall back to the placeholder `Unknown Program` for a falsy brand. -/
def transformOneProgram (gen : String) (program : RawProgram) : Program :=
  let finalProgramId :=
    match program.program_id with
    | some programId =>
      if programId != "" && jsTrim programId != "" then programId
      else ("program_") ++ gen
    | none => ("program_") ++ gen
  let finalBrand :=
    match program.brand with
    | some brand => if brand != "" then brand else ("Unknown Program")
    | none => ("Unknown Program")
  { programId := finalProgramId, programName := finalBrand }

/-- `transformPrograms` of `transformer.ts`: map each raw program and keep
only entries with a truthy id and a name that is truthy and not the
placeholder. -/
def transformPrograms (gen : String) (programs : Option (List RawProgram)) :
    List Program :=
  match programs with
  | none => []
  | some ps =>
    if ps.length = 0 then []
    else
      ((ps.map (transformOneProgram gen)).filter
        (fun p =>
          p.programId != "" && p.programName != "" &&
            p.programName != ("Unknown Program")))

/-- The posts extraction loop of `transformUser`: concatenate every
`tasks_completed` array of the advocacy programs. -/
def extractPosts (programs : List RawProgram) : List RawPost :=
  programs.foldl
    (fun allPosts prog =>
      match prog.tasks_completed with
      | some tasksCompleted => allPosts ++ tasksCompleted
      | none => allPosts) []

/-- The sales extraction loop of `transformUser`: record an attribution
only for a truthy, non-blank `program_id` with a numeric
`total_sales_attributed` strictly greater than 0. -/
def extractSales (programs : List RawProgram) : List SalesAttribution :=
  programs.foldl
    (fun salesAttributions prog =>
      match prog.program_id, jsNumber prog.total_sales_attributed with
      | some programId, some salesAmount =>
        if programId != "" && jsTrim programId != "" && salesAmount > 0 then
          salesAttributions ++ [createSalesAttribution programId salesAmount]
        else salesAttributions
      | _, _ => salesAttributions) []

/-- A raw user record as accepted by `validateUser`
(`flexibleUserSchema`). -/
structure RawUser where
  user_id : Option String
  name : Option String
  email : Option String
  instagram_handle : Option String
  tiktok_handle : Option String
  advocacy_programs : Option (List RawProgram)
  joined_at : Option RawDate
  deriving DecidableEq, Repr

/-- `transformUser` of `transformer.ts`. -/
def transformUser (gen : String) (dateParse : String → Option Int)
    (rawData : RawUser) : User :=
  let userId :=
    match rawData.user_id with
    | some rawUserId =>
      if rawUserId != "" && jsTrim rawUserId != "" then rawUserId
      else ("user_") ++ gen
    | none => ("user_") ++ gen
  let name := jsOrUndef rawData.name
  let email := jsOrUndef rawData.email
  let joinDate := parseTimestamp dateParse rawData.joined_at
  let directHandles :=
    (match rawData.instagram_handle with
     | some instagramHandle =>
       if instagramHandle != "" then
         [({ platform := ("instagram"), handle := some instagramHandle } :
           RawHandle)]
       else []
     | none => []) ++
    (match rawData.tiktok_handle with
     | some tiktokHandle =>
       if tiktokHandle != "" then
         [({ platform := ("tiktok"), handle := some tiktokHandle } :
           RawHandle)]
       else []
     | none => [])
  let socialHandles := transformSocialHandles directHandles
  let allPosts :=
    match rawData.advocacy_programs with
    | some advocacyPrograms => extractPosts advocacyPrograms
    | none => []
  let salesAttributions :=
    match rawData.advocacy_programs with
    | some advocacyPrograms => extractSales advocacyPrograms
    | none => []
  let posts := transformSocialPosts gen (some allPosts)
  let programs := transformPrograms gen rawData.advocacy_programs
  let totalEngagement := posts.foldl (fun sum post => sum + post.engagement) 0
  let totalSales :=
    salesAttributions.foldl (fun sum sale => sum + sale.amount) 0
  { userId := userId
    name := name
    email := email
    socialHandles := socialHandles
    programs := programs
    posts := posts
    salesAttributions := salesAttributions
    joinDate := joinDate
    totalEngagement := totalEngagement
    totalSales := totalSales }

/-! ### Lemmas about the map model -/

theorem mapGet_mapSet_self {α : Type} (m : List (String × α)) (k : String)
    (v : α) : mapGet (mapSet m k v) k = some v := by
  induction m with
  | nil => simp [mapGet, mapSet]
  | cons e rest ih =>
    obtain ⟨ek, ev⟩ := e
    by_cases h : ek = k
    · simp [mapGet, mapSet, h]
    · simp [mapGet, mapSet, h, ih]

theorem mapGet_mapSet_ne {α : Type} (m : List (String × α)) {k k' : String}
    (v : α) (h : k' ≠ k) : mapGet (mapSet m k v) k' = mapGet m k' := by
  have hk : ¬ k = k' := fun h' => h h'.symm
  induction m with
  | nil => simp [mapGet, mapSet, hk]
  | cons e rest ih =>
    obtain ⟨ek, ev⟩ := e
    by_cases he : ek = k
    · have he' : ¬ ek = k' := by rw [he]; exact hk
      simp [mapGet, mapSet, he, he', hk]
    · by_cases he' : ek = k'
      · simp [mapGet, mapSet, he, he', h, hk]
      · simp [mapGet, mapSet, he, he', ih]

theorem mapSet_of_get_none {α : Type} {m : List (String × α)} {k : String}
    (v : α) (h : mapGet m k = none) : mapSet m k v = m ++ [(k, v)] := by
  induction m with
  | nil => simp [mapSet]
  | cons e rest ih =>
    obtain ⟨ek, ev⟩ := e
    by_cases he : ek = k
    · simp [mapGet, he] at h
    · simp only [mapGet, if_neg he] at h
      simp [mapSet, he, ih h]

theorem mapGet_eq_none_iff {α : Type} (m : List (String × α)) (k : String) :
    mapGet m k = none ↔ k ∉ mapKeys m := by
  induction m with
  | nil => simp [mapGet, mapKeys]
  | cons e rest ih =>
    obtain ⟨ek, ev⟩ := e
    by_cases he : ek = k
    · simp [mapGet, mapKeys, he]
    · have hne : ¬ k = ek := fun h' => he h'.symm
      simp [mapGet, mapKeys, he, hne, ih]

theorem mapGet_isSome_iff {α : Type} (m : List (String × α)) (k : String) :
    mapGet m k ≠ none ↔ k ∈ mapKeys m := by
  constructor
  · intro h
    by_contra hk
    exact h ((mapGet_eq_none_iff m k).mpr hk)
  · intro h hnone
    exact ((mapGet_eq_none_iff m k).mp hnone) h

theorem mapKeys_mapSet_of_none {α : Type} {m : List (String × α)}
    {k : String} (v : α) (h : mapGet m k = none) :
    mapKeys (mapSet m k v) = mapKeys m ++ [k] := by
  rw [mapSet_of_get_none v h]
  simp [mapKeys]

theorem mapKeys_mapSet_of_some {α : Type} {m : List (String × α)}
    {k : String} (v : α) (h : mapGet m k ≠ none) :
    mapKeys (mapSet m k v) = mapKeys m := by
  induction m with
  | nil => simp [mapGet] at h
  | cons e rest ih =>
    obtain ⟨ek, ev⟩ := e
    by_cases he : ek = k
    · simp [mapSet, mapKeys, he]
    · simp only [mapGet, if_neg he] at h
      have hih := ih h
      simp only [mapKeys] at hih
      simp [mapSet, mapKeys, he, hih]

theorem nodup_mapKeys_mapSet {α : Type} {m : List (String × α)}
    (k : String) (v : α) (h : (mapKeys m).Nodup) :
    (mapKeys (mapSet m k v)).Nodup := by
  cases hg : mapGet m k with
  | none =>
    rw [mapKeys_mapSet_of_none v hg]
    have hk : k ∉ mapKeys m := (mapGet_eq_none_iff m k).mp hg
    simp [List.nodup_append, h, hk]
  | some w =>
    rw [mapKeys_mapSet_of_some v (by simp [hg])]
    exact h

theorem mapGet_append {α : Type} (m₁ m₂ : List (String × α)) (k : String) :
    mapGet (m₁ ++ m₂) k =
      match mapGet m₁ k with
      | some v => some v
      | none => mapGet m₂ k := by
  induction m₁ with
  | nil => simp [mapGet]
  | cons e rest ih =>
    obtain ⟨ek, ev⟩ := e
    by_cases he : ek = k
    · simp [mapGet, he]
    · simp [mapGet, he, ih]

theorem mapSet_append_of_none {α : Type} {m₁ : List (String × α)}
    (m₂ : List (String × α)) {k : String} (v : α)
    (h : mapGet m₁ k = none) :
    mapSet (m₁ ++ m₂) k v = m₁ ++ mapSet m₂ k v := by
  induction m₁ with
  | nil => simp
  | cons e rest ih =>
    obtain ⟨ek, ev⟩ := e
    by_cases he : ek = k
    · simp [mapGet, he] at h
    · simp only [mapGet, if_neg he] at h
      simp [mapSet, he, ih h]

theorem mem_mapSet {α : Type} {m : List (String × α)} {k : String} {v : α}
    {e : String × α} (h : e ∈ mapSet m k v) : e ∈ m ∨ e = (k, v) := by
  induction m with
  | nil =>
    simp [mapSet] at h
    simp [h]
  | cons e' rest ih =>
    obtain ⟨ek, ev⟩ := e'
    by_cases he : ek = k
    · simp only [mapSet, if_pos he, List.mem_cons] at h
      rcases h with h | h
      · right; rw [h, he]
      · left; simp [h]
    · simp only [mapSet, if_neg he, List.mem_cons] at h
      rcases h with h | h
      · left; simp [h]
      · rcases ih h with h' | h'
        · left; simp [h']
        · right; exact h'

theorem mapGet_mem {α : Type} {m : List (String × α)} {k : String} {v : α}
    (h : mapGet m k = some v) : (k, v) ∈ m := by
  induction m with
  | nil => simp [mapGet] at h
  | cons e rest ih =>
    obtain ⟨ek, ev⟩ := e
    by_cases he : ek = k
    · simp only [mapGet, if_pos he, Option.some.injEq] at h
      rw [← he, ← h]
      simp
    · simp only [mapGet, if_neg he] at h
      exact List.mem_cons_of_mem _ (ih h)

theorem filter_map_assoc {α β : Type} (g : String × β → α) (f : α → String)
    (m : List (String × β)) (k : String)
    (hgf : ∀ e ∈ m, f (g e) = e.1) (hnd : (mapKeys m).Nodup) :
    (m.map g).filter (fun a => f a == k) =
      ((mapGet m k).map (fun v => g (k, v))).toList := by
  induction m with
  | nil => simp [mapGet]
  | cons e rest ih =>
    obtain ⟨ek, ev⟩ := e
    have hfe : f (g (ek, ev)) = ek := hgf (ek, ev) (by simp)
    have hrest : ∀ e' ∈ rest, f (g e') = e'.1 :=
      fun e' he' => hgf e' (List.mem_cons_of_mem _ he')
    have hnd1 : ek ∉ mapKeys rest ∧ (mapKeys rest).Nodup :=
      List.nodup_cons.mp hnd
    have hnd' : (mapKeys rest).Nodup := hnd1.2
    by_cases he : ek = k
    · have hknotin : k ∉ mapKeys rest := by
        rw [← he]; exact hnd1.1
      have hnone : mapGet rest k = none :=
        (mapGet_eq_none_iff rest k).mpr hknotin
      have htail : (rest.map g).filter (fun a => f a == k) = [] := by
        rw [ih hrest hnd', hnone]; simp
      simp only [List.map_cons, List.filter_cons, hfe, he, beq_self_eq_true,
        if_pos rfl, htail, mapGet, if_pos rfl]
      simp [← he, hfe]
    · have hb : (f (g (ek, ev)) == k) = false := by
        simp [hfe, he]
      simp only [List.map_cons, List.filter_cons, hb, mapGet, if_neg he]
      simp only [Bool.false_eq_true, if_neg (by simp : ¬ False)]
      exact ih hrest hnd'

/-! ### Fold characterizations for the deduplication loops -/

theorem keepFirst_build {α : Type} (key : α → String) :
    ∀ (xs : List α) (m : List (String × α)),
      (xs.map key).Nodup → (∀ x ∈ xs, mapGet m (key x) = none) →
      xs.foldl (keepFirstStep key) m = m ++ xs.map (fun x => (key x, x)) := by
  intro xs
  induction xs with
  | nil => intro m _ _; simp
  | cons x rest ih =>
    intro m hnd hfresh
    simp only [List.map_cons] at hnd
    obtain ⟨hnotin, hnd'⟩ := List.nodup_cons.mp hnd
    have hx : mapGet m (key x) = none := hfresh x (by simp)
    have hstep : keepFirstStep key m x = m ++ [(key x, x)] := by
      simp only [keepFirstStep, hx]
      exact mapSet_of_get_none x hx
    simp only [List.foldl_cons, hstep]
    have hfresh' :
        ∀ y ∈ rest, mapGet (m ++ [(key x, x)]) (key y) = none := by
      intro y hy
      rw [mapGet_append, hfresh y (List.mem_cons_of_mem _ hy)]
      have hne : ¬ key x = key y := by
        intro hc
        exact hnotin (hc ▸ List.mem_map_of_mem key hy)
      simp [mapGet, hne]
    rw [ih (m ++ [(key x, x)]) hnd' hfresh']
    simp

theorem keepFirst_skip {α : Type} (key : α → String) :
    ∀ (xs : List α) (m : List (String × α)),
      (∀ x ∈ xs, mapGet m (key x) ≠ none) →
      xs.foldl (keepFirstStep key) m = m := by
  intro xs
  induction xs with
  | nil => intro m _; simp
  | cons x rest ih =>
    intro m h
    have hx := h x (by simp)
    have hstep : keepFirstStep key m x = m := by
      rcases hg : mapGet m (key x) with _ | w
      · exact absurd hg hx
      · simp [keepFirstStep, hg]
    simp only [List.foldl_cons, hstep]
    exact ih m (fun y hy => h y (List.mem_cons_of_mem _ hy))

theorem mapGet_buildList {α : Type} (key : α → String) :
    ∀ (xs : List α) (x : α), (xs.map key).Nodup → x ∈ xs →
      mapGet (xs.map (fun y => (key y, y))) (key x) = some x := by
  intro xs
  induction xs with
  | nil => intro x _ hx; simp at hx
  | cons y rest ih =>
    intro x hnd hx
    simp only [List.map_cons] at hnd
    obtain ⟨hnotin, hnd'⟩ := List.nodup_cons.mp hnd
    rcases List.mem_cons.mp hx with h | h
    · subst h
      simp [mapGet]
    · have hne : ¬ key y = key x := by
        intro hc
        exact hnotin (hc ▸ List.mem_map_of_mem key h)
      simp [mapGet, hne, ih x hnd' h]

theorem postsFold_build :
    ∀ (ps : List SocialPost) (m : List (String × SocialPost)),
      (ps.map SocialPost.postId).Nodup →
      (∀ p ∈ ps, mapGet m p.postId = none) →
      ps.foldl postsStep m = m ++ ps.map (fun p => (p.postId, p)) := by
  intro ps
  induction ps with
  | nil => intro m _ _; simp
  | cons p rest ih =>
    intro m hnd hfresh
    simp only [List.map_cons] at hnd
    obtain ⟨hnotin, hnd'⟩ := List.nodup_cons.mp hnd
    have hp : mapGet m p.postId = none := hfresh p (by simp)
    have hstep : postsStep m p = m ++ [(p.postId, p)] := by
      simp only [postsStep, hp]
      exact mapSet_of_get_none p hp
    simp only [List.foldl_cons, hstep]
    have hfresh' :
        ∀ q ∈ rest, mapGet (m ++ [(p.postId, p)]) q.postId = none := by
      intro q hq
      rw [mapGet_append, hfresh q (List.mem_cons_of_mem _ hq)]
      have hne : ¬ p.postId = q.postId := by
        intro hc
        exact hnotin (hc ▸ List.mem_map_of_mem SocialPost.postId hq)
      simp [mapGet, hne]
    rw [ih (m ++ [(p.postId, p)]) hnd' hfresh']
    simp

theorem postsFold_skip :
    ∀ (ps : List SocialPost) (m : List (String × SocialPost)),
      (∀ p ∈ ps, ∃ q, mapGet m p.postId = some q ∧
        ¬ p.engagement > q.engagement) →
      ps.foldl postsStep m = m := by
  intro ps
  induction ps with
  | nil => intro m _; simp
  | cons p rest ih =>
    intro m h
    obtain ⟨q, hq, heng⟩ := h p (by simp)
    have hstep : postsStep m p = m := by
      simp [postsStep, hq, heng]
    simp only [List.foldl_cons, hstep]
    exact ih m (fun y hy => h y (List.mem_cons_of_mem _ hy))

/-- The per-key resolution of `deduplicatePosts`: the incoming post wins
only with a strictly higher engagement. -/
def postPick (cur : Option SocialPost) (post : SocialPost) :
    Option SocialPost :=
  match cur with
  | none => some post
  | some existing =>
    if post.engagement > existing.engagement then some post else some existing

/-- `postPick` restricted to posts carrying the key `pid`. -/
def postSel (pid : String) (cur : Option SocialPost) (post : SocialPost) :
    Option SocialPost :=
  if post.postId = pid then postPick cur post else cur

theorem postsFold_get :
    ∀ (ps : List SocialPost) (m : List (String × SocialPost)) (pid : String),
      mapGet (ps.foldl postsStep m) pid =
        ps.foldl (postSel pid) (mapGet m pid) := by
  intro ps
  induction ps with
  | nil => intro m pid; simp
  | cons p rest ih =>
    intro m pid
    simp only [List.foldl_cons]
    rw [ih]
    congr 1
    by_cases hpid : p.postId = pid
    · subst hpid
      cases hg : mapGet m p.postId with
      | none =>
        simp [postsStep, hg, postSel, postPick, mapGet_mapSet_self]
      | some q =>
        by_cases heng : p.engagement > q.engagement
        · simp [postsStep, hg, postSel, postPick, heng, mapGet_mapSet_self]
        · simp [postsStep, hg, postSel, postPick, heng]
    · have hsel : postSel pid (mapGet m pid) p = mapGet m pid := by
        simp [postSel, hpid]
      rw [hsel]
      have hne : pid ≠ p.postId := fun h => hpid h.symm
      cases hg : mapGet m p.postId with
      | none =>
        simp only [postsStep, hg]
        exact mapGet_mapSet_ne m p hne
      | some q =>
        by_cases heng : p.engagement > q.engagement
        · simp only [postsStep, hg, if_pos heng]
          exact mapGet_mapSet_ne m p hne
        · simp [postsStep, hg, heng]

theorem postSel_foldl_filter (pid : String) :
    ∀ (ps : List SocialPost) (c : Option SocialPost),
      ps.foldl (postSel pid) c =
        (ps.filter (fun p => p.postId == pid)).foldl postPick c := by
  intro ps
  induction ps with
  | nil => intro c; simp
  | cons p rest ih =>
    intro c
    by_cases h : p.postId = pid
    · simp [List.filter_cons, h, postSel, ih]
    · simp [List.filter_cons, h, postSel, ih]

theorem postsFold_inv :
    ∀ (ps : List SocialPost) (m : List (String × SocialPost)),
      (∀ e ∈ m, e.2.postId = e.1) →
      ∀ e ∈ ps.foldl postsStep m, e.2.postId = e.1 := by
  intro ps
  induction ps with
  | nil => intro m h; simpa using h
  | cons p rest ih =>
    intro m h
    simp only [List.foldl_cons]
    apply ih
    intro e he
    have hof : e ∈ m ∨ e = (p.postId, p) → e.2.postId = e.1 := by
      intro hcase
      rcases hcase with h' | h'
      · exact h e h'
      · rw [h']
    cases hg : mapGet m p.postId with
    | none =>
      simp only [postsStep, hg] at he
      exact hof (mem_mapSet he)
    | some q =>
      by_cases heng : p.engagement > q.engagement
      · simp only [postsStep, hg, if_pos heng] at he
        exact hof (mem_mapSet he)
      · simp only [postsStep, hg, if_neg heng] at he
        exact hof (Or.inl he)

theorem postsFold_nodup :
    ∀ (ps : List SocialPost) (m : List (String × SocialPost)),
      (mapKeys m).Nodup → (mapKeys (ps.foldl postsStep m)).Nodup := by
  intro ps
  induction ps with
  | nil => intro m h; simpa using h
  | cons p rest ih =>
    intro m h
    simp only [List.foldl_cons]
    apply ih
    cases hg : mapGet m p.postId with
    | none =>
      simp only [postsStep, hg]
      exact nodup_mapKeys_mapSet _ _ h
    | some q =>
      by_cases heng : p.engagement > q.engagement
      · simp only [postsStep, hg, if_pos heng]
        exact nodup_mapKeys_mapSet _ _ h
      · simp only [postsStep, hg, if_neg heng]
        exact h

/-- The per-key accumulation of `deduplicateSalesAttributions`,
restricted to attributions carrying the key `pid`. -/
def salesSel (pid : String) (cur : Option Int) (attribution : SalesAttribution) :
    Option Int :=
  if attribution.programId = pid then some (cur.getD 0 + attribution.amount)
  else cur

theorem salesFold_get :
    ∀ (as : List SalesAttribution) (m : List (String × Int)) (pid : String),
      mapGet (as.foldl salesStep m) pid =
        as.foldl (salesSel pid) (mapGet m pid) := by
  intro as
  induction as with
  | nil => intro m pid; simp
  | cons a rest ih =>
    intro m pid
    simp only [List.foldl_cons]
    rw [ih]
    congr 1
    by_cases hpid : a.programId = pid
    · subst hpid
      simp [salesStep, salesSel, mapGet_mapSet_self]
    · have hne : pid ≠ a.programId := fun h => hpid h.symm
      simp only [salesStep, salesSel, if_neg hpid]
      exact mapGet_mapSet_ne m _ hne

theorem salesSel_foldl (pid : String) :
    ∀ (as : List SalesAttribution) (c : Option Int),
      as.foldl (salesSel pid) c =
        if (as.filter (fun a => a.programId == pid)).length = 0 then c
        else
          some (c.getD 0 +
            ((as.filter (fun a => a.programId == pid)).map
              SalesAttribution.amount).sum) := by
  intro as
  induction as with
  | nil => intro c; simp
  | cons a rest ih =>
    intro c
    by_cases h : a.programId = pid
    · simp only [List.foldl_cons, List.filter_cons, h, beq_self_eq_true,
        if_pos rfl, salesSel, if_true]
      rw [ih (some (c.getD 0 + a.amount))]
      by_cases hrest : (rest.filter (fun a => a.programId == pid)).length = 0
      · have hempty : rest.filter (fun a => a.programId == pid) = [] :=
          List.length_eq_zero.mp hrest
        simp [hrest, hempty]
      · simp only [hrest, if_neg hrest, List.length_cons, Option.getD_some]
        have hne1 :
            ¬ (rest.filter (fun a => a.programId == pid)).length + 1 = 0 := by
          omega
        simp [hne1]
        ring
    · have hb : (a.programId == pid) = false := by simp [h]
      simp only [List.foldl_cons, List.filter_cons, hb, salesSel, if_neg h]
      simp only [Bool.false_eq_true, if_neg (by simp : ¬ False)]
      exact ih c

theorem salesFold_nodup :
    ∀ (as : List SalesAttribution) (m : List (String × Int)),
      (mapKeys m).Nodup → (mapKeys (as.foldl salesStep m)).Nodup := by
  intro as
  induction as with
  | nil => intro m h; simpa using h
  | cons a rest ih =>
    intro m h
    simp only [List.foldl_cons, salesStep]
    exact ih _ (nodup_mapKeys_mapSet _ _ h)

theorem salesFold_build :
    ∀ (as : List SalesAttribution) (m : List (String × Int)),
      (as.map SalesAttribution.programId).Nodup →
      (∀ a ∈ as, mapGet m a.programId = none) →
      as.foldl salesStep m =
        m ++ as.map (fun a => (a.programId, a.amount)) := by
  intro as
  induction as with
  | nil => intro m _ _; simp
  | cons a rest ih =>
    intro m hnd hfresh
    simp only [List.map_cons] at hnd
    obtain ⟨hnotin, hnd'⟩ := List.nodup_cons.mp hnd
    have ha : mapGet m a.programId = none := hfresh a (by simp)
    have hstep : salesStep m a = m ++ [(a.programId, a.amount)] := by
      simp only [salesStep, ha, Option.getD_none, Int.zero_add]
      exact mapSet_of_get_none _ ha
    simp only [List.foldl_cons, hstep]
    have hfresh' :
        ∀ b ∈ rest, mapGet (m ++ [(a.programId, a.amount)]) b.programId = none := by
      intro b hb
      rw [mapGet_append, hfresh b (List.mem_cons_of_mem _ hb)]
      have hne : ¬ a.programId = b.programId := by
        intro hc
        exact hnotin (hc ▸ List.mem_map_of_mem SalesAttribution.programId hb)
      simp [mapGet, hne]
    rw [ih (m ++ [(a.programId, a.amount)]) hnd' hfresh']
    simp

theorem salesFold_double :
    ∀ (as : List SalesAttribution) (m₁ : List (String × Int)),
      (as.map SalesAttribution.programId).Nodup →
      (∀ a ∈ as, mapGet m₁ a.programId = none) →
      as.foldl salesStep (m₁ ++ as.map (fun a => (a.programId, a.amount))) =
        m₁ ++ as.map (fun a => (a.programId, a.amount + a.amount)) := by
  intro as
  induction as with
  | nil => intro m₁ _ _; simp
  | cons a rest ih =>
    intro m₁ hnd hfresh
    simp only [List.map_cons] at hnd
    obtain ⟨hnotin, hnd'⟩ := List.nodup_cons.mp hnd
    have hm₁ : mapGet m₁ a.programId = none := hfresh a (by simp)
    have hget :
        mapGet (m₁ ++ (a.programId, a.amount) ::
          rest.map (fun b => (b.programId, b.amount))) a.programId =
          some a.amount := by
      rw [mapGet_append, hm₁]
      simp [mapGet]
    have hstep :
        salesStep (m₁ ++ (a.programId, a.amount) ::
            rest.map (fun b => (b.programId, b.amount))) a =
          (m₁ ++ [(a.programId, a.amount + a.amount)]) ++
            rest.map (fun b => (b.programId, b.amount)) := by
      simp only [salesStep, hget, Option.getD_some]
      rw [mapSet_append_of_none _ _ hm₁]
      simp [mapSet]
    simp only [List.map_cons, List.foldl_cons]
    rw [show m₁ ++ (a.programId, a.amount) ::
          rest.map (fun b => (b.programId, b.amount)) =
        m₁ ++ ((a.programId, a.amount) ::
          rest.map (fun b => (b.programId, b.amount))) from rfl]
    rw [hstep]
    have hfresh' :
        ∀ b ∈ rest,
          mapGet (m₁ ++ [(a.programId, a.amount + a.amount)]) b.programId =
            none := by
      intro b hb
      rw [mapGet_append, hfresh b (List.mem_cons_of_mem _ hb)]
      have hne : ¬ a.programId = b.programId := by
        intro hc
        exact hnotin (hc ▸ List.mem_map_of_mem SalesAttribution.programId hb)
      simp [mapGet, hne]
    rw [ih (m₁ ++ [(a.programId, a.amount + a.amount)]) hnd' hfresh']
    simp

theorem usersFold_nodup :
    ∀ (us : List User) (m : List (String × User)),
      (mapKeys m).Nodup → (mapKeys (us.foldl usersStep m)).Nodup := by
  intro us
  induction us with
  | nil => intro m h; simpa using h
  | cons u rest ih =>
    intro m h
    simp only [List.foldl_cons]
    apply ih
    cases hg : mapGet m u.userId with
    | none =>
      simp only [usersStep, hg]
      exact nodup_mapKeys_mapSet _ _ h
    | some existing =>
      simp only [usersStep, hg]
      by_cases h1 : calculateCompletenessScore u >
          calculateCompletenessScore existing
      · simp only [if_pos h1]
        exact nodup_mapKeys_mapSet _ _ h
      · simp only [if_neg h1]
        by_cases h2 : calculateCompletenessScore u =
            calculateCompletenessScore existing
        · simp only [if_pos h2]
          exact nodup_mapKeys_mapSet _ _ h
        · simp only [if_neg h2]
          exact h

theorem usersFold_inv :
    ∀ (us : List User) (m : List (String × User)),
      (∀ e ∈ m, e.2.userId = e.1) →
      ∀ e ∈ us.foldl usersStep m, e.2.userId = e.1 := by
  intro us
  induction us with
  | nil => intro m h; simpa using h
  | cons u rest ih =>
    intro m h
    simp only [List.foldl_cons]
    apply ih
    intro e he
    have hof : e ∈ m ∨ e = (u.userId, u) → e.2.userId = e.1 := by
      intro hcase
      rcases hcase with h' | h'
      · exact h e h'
      · rw [h']
    cases hg : mapGet m u.userId with
    | none =>
      simp only [usersStep, hg] at he
      exact hof (mem_mapSet he)
    | some existing =>
      have hex : existing.userId = u.userId := h _ (mapGet_mem hg)
      simp only [usersStep, hg] at he
      by_cases h1 : calculateCompletenessScore u >
          calculateCompletenessScore existing
      · simp only [if_pos h1] at he
        exact hof (mem_mapSet he)
      · simp only [if_neg h1] at he
        by_cases h2 : calculateCompletenessScore u =
            calculateCompletenessScore existing
        · simp only [if_pos h2] at he
          rcases mem_mapSet he with h' | h'
          · exact h e h'
          · rw [h']
            exact hex
        · simp only [if_neg h2] at he
          exact h e he

/-- Reductions with `+` starting from an accumulator, stated against
`List.sum`. -/
theorem foldl_add_sum {α : Type} (f : α → Int) :
    ∀ (l : List α) (s : Int),
      l.foldl (fun sum x => sum + f x) s = s + (l.map f).sum := by
  intro l
  induction l with
  | nil => simp
  | cons x xs ih =>
    intro s
    simp only [List.foldl_cons, List.map_cons, List.sum_cons, ih]
    ring

/-! ### Support lemmas about the transformer -/

theorem prefixed_ne_empty (pre gen : String) (h : pre.length ≠ 0) :
    pre ++ gen ≠ "" := by
  intro hc
  have h2 := congrArg String.length hc
  rw [String.length_append] at h2
  have h4 : ("").length = 0 := rfl
  rw [h4] at h2
  omega

theorem transformOnePost_postId_ne (gen : String) (post : RawPost) :
    (transformOnePost gen post).postId ≠ "" := by
  have hgen : ("task_") ++ gen ≠ "" :=
    prefixed_ne_empty ("task_") gen (by decide)
  simp only [transformOnePost]
  cases hti : post.task_id with
  | none => simpa using hgen
  | some taskId =>
    by_cases hs : taskId != "" && jsTrim taskId != ""
    · simp only [if_pos hs]
      have : taskId ≠ "" := by
        have := (Bool.and_eq_true _ _).mp hs
        simpa using this.1
      simpa using this
    · simp only [if_neg hs]
      simpa using hgen

theorem transformOnePost_platform_ne (gen : String) (post : RawPost) :
    (transformOnePost gen post).platform ≠ "" := by
  simp only [transformOnePost]
  cases hpl : post.platform with
  | none => simp
  | some platform =>
    by_cases hs : platform != ""
    · simp only [if_pos hs]
      simpa using hs
    · simp only [if_neg hs]
      simp

theorem transformOnePost_keep (gen : String) (post : RawPost) :
    ((transformOnePost gen post).postId != "" &&
      (transformOnePost gen post).platform != "") = true := by
  simp [transformOnePost_postId_ne gen post,
    transformOnePost_platform_ne gen post]

theorem transformSocialPosts_eq_map (gen : String) (ps : List RawPost) :
    transformSocialPosts gen (some ps) = ps.map (transformOnePost gen) := by
  cases ps with
  | nil => simp [transformSocialPosts]
  | cons p rest =>
    simp only [transformSocialPosts, List.length_cons]
    rw [if_neg (by omega)]
    apply List.filter_eq_self.mpr
    intro a ha
    obtain ⟨q, hq, hqa⟩ := List.mem_map.mp ha
    rw [← hqa]
    exact transformOnePost_keep gen q

theorem transformOneProgram_programId_ne (gen : String)
    (program : RawProgram) :
    (transformOneProgram gen program).programId ≠ "" := by
  have hgen : ("program_") ++ gen ≠ "" :=
    prefixed_ne_empty ("program_") gen (by decide)
  simp only [transformOneProgram]
  cases hpi : program.program_id with
  | none => simpa using hgen
  | some programId =>
    by_cases hs : programId != "" && jsTrim programId != ""
    · simp only [if_pos hs]
      have : programId ≠ "" := by
        have := (Bool.and_eq_true _ _).mp hs
        simpa using this.1
      simpa using this
    · simp only [if_neg hs]
      simpa using hgen

/-- The keep test of `transformPrograms` expressed on the raw entry: the
coerced brand is non-empty and is not the placeholder. -/
def brandKept (program : RawProgram) : Bool :=
  match program.brand with
  | some brand => brand != "" && brand != ("Unknown Program")
  | none => false

theorem transformOneProgram_keep_iff (gen : String) (program : RawProgram) :
    ((transformOneProgram gen program).programId != "" &&
      (transformOneProgram gen program).programName != "" &&
      (transformOneProgram gen program).programName !=
        ("Unknown Program")) = brandKept program := by
  have hid : ((transformOneProgram gen program).programId != "") = true := by
    simpa using transformOneProgram_programId_ne gen program
  rw [hid, Bool.true_and]
  simp only [transformOneProgram]
  cases hb : program.brand with
  | none => simp [brandKept, hb]
  | some brand =>
    by_cases hbe : brand != ""
    · simp [brandKept, hb, hbe]
    · have : brand = "" := by simpa using hbe
      simp [brandKept, hb, this]

theorem filter_comm_map {α β : Type} (f : α → β) (q : β → Bool)
    (l : List α) :
    (l.map f).filter q = (l.filter (fun x => q (f x))).map f := by
  induction l with
  | nil => simp
  | cons x xs ih =>
    by_cases h : q (f x) <;> simp [List.filter_cons, h, ih]

theorem transformPrograms_eq_filter_map (gen : String)
    (ps : List RawProgram) :
    transformPrograms gen (some ps) =
      (ps.filter brandKept).map (transformOneProgram gen) := by
  cases ps with
  | nil => simp [transformPrograms]
  | cons p rest =>
    simp only [transformPrograms, List.length_cons]
    rw [if_neg (by omega)]
    rw [filter_comm_map]
    congr 1
    apply List.filter_congr
    intro a _
    exact transformOneProgram_keep_iff gen a

/-- Rewrite every brand of every advocacy program of a raw record. -/
def mapBrands (f : Option String → Option String) (raw : RawUser) :
    RawUser :=
  { raw with
    advocacy_programs :=
      raw.advocacy_programs.map
        (fun ps => ps.map (fun p => { p with brand := f p.brand })) }

theorem foldl_map_invariant {α γ : Type} (g : α → α) (step : γ → α → γ)
    (hstep : ∀ acc x, step acc (g x) = step acc x) :
    ∀ (l : List α) (acc : γ), (l.map g).foldl step acc = l.foldl step acc := by
  intro l
  induction l with
  | nil => intro acc; rfl
  | cons x xs ih =>
    intro acc
    simp only [List.map_cons, List.foldl_cons, hstep, ih]

theorem extractPosts_mapBrands (f : Option String → Option String)
    (ps : List RawProgram) :
    extractPosts (ps.map (fun p => { p with brand := f p.brand })) =
      extractPosts ps := by
  unfold extractPosts
  apply foldl_map_invariant
  intro acc x
  rfl

theorem extractSales_mapBrands (f : Option String → Option String)
    (ps : List RawProgram) :
    extractSales (ps.map (fun p => { p with brand := f p.brand })) =
      extractSales ps := by
  unfold extractSales
  apply foldl_map_invariant
  intro acc x
  rfl

theorem sum_map_add {α : Type} (f g : α → Int) (l : List α) :
    (l.map (fun a => f a + g a)).sum = (l.map f).sum + (l.map g).sum := by
  induction l with
  | nil => simp
  | cons x xs ih =>
    simp only [List.map_cons, List.sum_cons, ih]
    ring

theorem mapKeys_build {α : Type} (key : α → String) (xs : List α) :
    mapKeys (xs.map (fun x => (key x, x))) = xs.map key := by
  simp [mapKeys, List.map_map]

theorem map_snd_build {α : Type} (key : α → String) (xs : List α) :
    (xs.map (fun x => (key x, x))).map Prod.snd = xs := by
  induction xs with
  | nil => rfl
  | cons x rest ih => simp [ih]

/-! ### Claim theorems -/

/-- C2: for every entity produced by `transformUser`, and for every entity
after `recalculateTotals` (hence every entity handed to the loader after
deduplication), `totalEngagement` is the sum of the engagements of its
posts and `totalSales` the sum of the amounts of its sales attributions;
the last conjunct shows the recomputation ignores whatever totals the
input carried (the raw record carries no totals field at all, so the
transformer cannot copy them from input). -/
theorem totalsInvariant (gen : String) (dateParse : String → Option Int)
    (raw : RawUser) (u : User) (t1 t2 : Int) :
    (transformUser gen dateParse raw).totalEngagement =
      ((transformUser gen dateParse raw).posts.map
        SocialPost.engagement).sum ∧
    (transformUser gen dateParse raw).totalSales =
      ((transformUser gen dateParse raw).salesAttributions.map
        SalesAttribution.amount).sum ∧
    (recalculateTotals u).totalEngagement =
      ((recalculateTotals u).posts.map SocialPost.engagement).sum ∧
    (recalculateTotals u).totalSales =
      ((recalculateTotals u).salesAttributions.map
        SalesAttribution.amount).sum ∧
    recalculateTotals { u with totalEngagement := t1, totalSales := t2 } =
      recalculateTotals u := by
  refine ⟨?_, ?_, ?_, ?_, ?_⟩
  · simp only [transformUser]
    rw [foldl_add_sum]
    simp
  · simp only [transformUser]
    rw [foldl_add_sum]
    simp
  · simp only [recalculateTotals]
    rw [foldl_add_sum]
    simp
  · simp only [recalculateTotals]
    rw [foldl_add_sum]
    simp
  · simp only [recalculateTotals]

/-- C3: `transformUser` is total on validator-accepted records (it is a
total Lean function on the `RawUser` domain, which models acceptance by
`validateUser`), and every missing or blank field degrades to a safe
default: the identifier is synthesized and never blank, blank or missing
name and email collapse to `none`, a missing `joined_at` gives no join
date, and missing advocacy programs give empty collections. -/
theorem transformSafeDefaults (gen : String)
    (dateParse : String → Option Int) (raw : RawUser) :
    (transformUser gen dateParse raw).userId ≠ "" ∧
    (transformUser gen dateParse { raw with user_id := none }).userId =
      ("user_") ++ gen ∧
    (transformUser gen dateParse { raw with user_id := some ("") }).userId =
      ("user_") ++ gen ∧
    (transformUser gen dateParse { raw with name := none }).name = none ∧
    (transformUser gen dateParse { raw with name := some ("") }).name =
      none ∧
    (transformUser gen dateParse { raw with email := none }).email = none ∧
    (transformUser gen dateParse { raw with email := some ("") }).email =
      none ∧
    (transformUser gen dateParse
      { raw with joined_at := none }).joinDate = none ∧
    (transformUser gen dateParse
      { raw with advocacy_programs := none }).programs = [] ∧
    (transformUser gen dateParse
      { raw with advocacy_programs := none }).posts = [] ∧
    (transformUser gen dateParse
      { raw with advocacy_programs := none }).salesAttributions = [] := by
  have hgen : ("user_") ++ gen ≠ "" :=
    prefixed_ne_empty ("user_") gen (by decide)
  refine ⟨?_, ?_, ?_, ?_, ?_, ?_, ?_, ?_, ?_, ?_, ?_⟩
  · simp only [transformUser]
    cases hid : raw.user_id with
    | none => simpa using hgen
    | some rawUserId =>
      by_cases hs : rawUserId != "" && jsTrim rawUserId != ""
      · simp only [if_pos hs]
        have : rawUserId ≠ "" := by
          have := (Bool.and_eq_true _ _).mp hs
          simpa using this.1
        simpa using this
      · simp only [if_neg hs]
        simpa using hgen
  · simp [transformUser]
  · simp [transformUser]
  · simp [transformUser, jsOrUndef, strTruthy]
  · simp [transformUser, jsOrUndef, strTruthy]
  · simp [transformUser, jsOrUndef, strTruthy]
  · simp [transformUser, jsOrUndef, strTruthy]
  · simp [transformUser, parseTimestamp]
  · simp [transformUser, transformPrograms]
  · simp [transformUser, transformSocialPosts]
  · simp [transformUser, extractSales]

/-- C4: when two entities with the same identifier meet in a batch and one
has a strictly higher completeness score, `deduplicateUsers` keeps exactly
the higher-scored entity, whichever order they arrive in; the lower-scored
entity contributes nothing to the result. -/
theorem higherScoreWins (u1 u2 : User)
    (hid : u1.userId = u2.userId)
    (hlt : calculateCompletenessScore u1 < calculateCompletenessScore u2) :
    deduplicateUsers [u1, u2] = [u2] ∧ deduplicateUsers [u2, u1] = [u2] := by
  constructor
  · simp only [deduplicateUsers, List.foldl_cons, List.foldl_nil]
    have h1 : usersStep [] u1 = [(u1.userId, u1)] := by
      simp [usersStep, mapGet, mapSet]
    rw [h1]
    have hget : mapGet [(u1.userId, u1)] u2.userId = some u1 := by
      simp [mapGet, hid]
    have h2 : usersStep [(u1.userId, u1)] u2 = [(u1.userId, u2)] := by
      simp only [usersStep, hget]
      rw [if_pos hlt]
      simp [mapSet, hid]
    rw [h2]
    simp
  · simp only [deduplicateUsers, List.foldl_cons, List.foldl_nil]
    have h1 : usersStep [] u2 = [(u2.userId, u2)] := by
      simp [usersStep, mapGet, mapSet]
    rw [h1]
    have hget : mapGet [(u2.userId, u2)] u1.userId = some u2 := by
      simp [mapGet, hid]
    have h2 : usersStep [(u2.userId, u2)] u1 = [(u2.userId, u2)] := by
      simp only [usersStep, hget]
      rw [if_neg (by omega), if_neg (by omega)]
    rw [h2]
    simp

/-- Concrete entity with the minimal completeness score. -/
def scoreLowUser : User :=
  { userId := ("u"), name := none, email := none, socialHandles := [],
    programs := [], posts := [], salesAttributions := [], joinDate := none,
    totalEngagement := 0, totalSales := 0 }

/-- Concrete entity outscoring `scoreLowUser` by its name. -/
def scoreHighUser : User :=
  { scoreLowUser with name := some ("a") }

/-- Witness for C4 at a concrete pair of entities. -/
theorem higherScoreWins_witness :
    scoreLowUser.userId = scoreHighUser.userId ∧
    calculateCompletenessScore scoreLowUser <
      calculateCompletenessScore scoreHighUser ∧
    (deduplicateUsers [scoreLowUser, scoreHighUser] = [scoreHighUser] ∧
      deduplicateUsers [scoreHighUser, scoreLowUser] = [scoreHighUser]) :=
  ⟨rfl, by decide, higherScoreWins scoreLowUser scoreHighUser rfl (by decide)⟩

/-- C9: every raw post is kept by `transformSocialPosts` (the final filter
is vacuous), its numeric fields are the `Number(...)` coercions with `NaN`
mapped to 0 — in particular a missing field or one whose coercion is `NaN`
gives 0 — and its engagement is `likes + comments + shares`, with `reach`
excluded. -/
theorem postsCoercion (gen : String) (ps : List RawPost) (post : RawPost) :
    transformSocialPosts gen (some ps) = ps.map (transformOnePost gen) ∧
    (transformOnePost gen post).likes = (jsNumber post.likes).getD 0 ∧
    (transformOnePost gen post).comments =
      (jsNumber post.comments).getD 0 ∧
    (transformOnePost gen post).shares = (jsNumber post.shares).getD 0 ∧
    (transformOnePost gen post).reach = (jsNumber post.reach).getD 0 ∧
    (transformOnePost gen post).engagement =
      (jsNumber post.likes).getD 0 + (jsNumber post.comments).getD 0 +
        (jsNumber post.shares).getD 0 ∧
    (jsNumber RawNum.missing).getD 0 = 0 ∧
    (jsNumber RawNum.nan).getD 0 = 0 ∧
    (jsNumber RawNum.null).getD 0 = 0 := by
  refine ⟨transformSocialPosts_eq_map gen ps, ?_, ?_, ?_, ?_, ?_, rfl, rfl,
    rfl⟩ <;>
    simp [transformOnePost, calculateEngagement]

/-- C10: the identifiers of the entities returned by `deduplicateUsers`
are pairwise distinct, and a merged entity keeps the identifier of the
first merge operand (inside the loop that operand is the stored entity,
whose identifier is the shared group key). -/
theorem dedupUniqueIds (users : List User) (u1 u2 : User) :
    ((deduplicateUsers users).map User.userId).Nodup ∧
    (mergeUsers u1 u2).userId = u1.userId := by
  constructor
  · have hnd := usersFold_nodup users [] (by simp [mapKeys])
    have hinv := usersFold_inv users [] (by simp)
    have hmap :
        ((users.foldl usersStep []).map Prod.snd).map User.userId =
          mapKeys (users.foldl usersStep []) := by
      rw [List.map_map, mapKeys]
      exact List.map_congr_left (fun e he => hinv e he)
    rw [deduplicateUsers, hmap]
    exact hnd
  · rfl

/-- C5: when two entities with the same identifier and equal completeness
scores are merged, the attributions for any `programId` occurring in
either operand collapse into exactly one entry whose amount is the sum of
the amounts both operands carry for that `programId`; distinct program
identifiers therefore keep separate entries, one each. -/
theorem mergeSalesSum (u1 u2 : User) (pid : String)
    (hid : u1.userId = u2.userId)
    (hsc : calculateCompletenessScore u1 = calculateCompletenessScore u2)
    (hmem : pid ∈ (u1.salesAttributions ++ u2.salesAttributions).map
      SalesAttribution.programId) :
    (mergeUsers u1 u2).salesAttributions.filter
        (fun a => a.programId == pid) =
      [{ programId := pid
         amount :=
           ((u1.salesAttributions.filter (fun a => a.programId == pid)).map
             SalesAttribution.amount).sum +
           ((u2.salesAttributions.filter (fun a => a.programId == pid)).map
             SalesAttribution.amount).sum }] := by
  have hmerge :
      (mergeUsers u1 u2).salesAttributions =
        deduplicateSalesAttributions
          (u1.salesAttributions ++ u2.salesAttributions) := rfl
  rw [hmerge]
  unfold deduplicateSalesAttributions
  set as := u1.salesAttributions ++ u2.salesAttributions with has
  have hnd : (mapKeys (as.foldl salesStep [])).Nodup :=
    salesFold_nodup as [] (by simp [mapKeys])
  rw [filter_map_assoc _ SalesAttribution.programId _ pid
    (fun e he => rfl) hnd]
  rw [salesFold_get as [] pid]
  have hget : mapGet ([] : List (String × Int)) pid = none := rfl
  rw [hget, salesSel_foldl pid as none]
  have hlen : ¬ (as.filter (fun a => a.programId == pid)).length = 0 := by
    obtain ⟨a, ha, hap⟩ := List.mem_map.mp hmem
    intro hcontra
    have : a ∈ as.filter (fun a => a.programId == pid) :=
      List.mem_filter.mpr ⟨ha, by simp [hap]⟩
    rw [List.length_eq_zero.mp hcontra] at this
    simp at this
  rw [if_neg hlen]
  have hsplit :
      as.filter (fun a => a.programId == pid) =
        u1.salesAttributions.filter (fun a => a.programId == pid) ++
          u2.salesAttributions.filter (fun a => a.programId == pid) := by
    rw [has, List.filter_append]
  rw [hsplit]
  simp

/-- First operand for the C5 witness. -/
def salesOperandA : User :=
  { userId := ("m"), name := none, email := none, socialHandles := [],
    programs := [], posts := [],
    salesAttributions := [{ programId := ("p1"), amount := 50 }],
    joinDate := none, totalEngagement := 5, totalSales := 0 }

/-- Second operand for the C5 witness, with the same completeness score. -/
def salesOperandB : User :=
  { userId := ("m"), name := none, email := none, socialHandles := [],
    programs := [], posts := [],
    salesAttributions := [{ programId := ("p1"), amount := 70 },
      { programId := ("p2"), amount := 5 }],
    joinDate := none, totalEngagement := 0, totalSales := 0 }

/-- Witness for C5 at a concrete pair of entities sharing `p1`. -/
theorem mergeSalesSum_witness :
    salesOperandA.userId = salesOperandB.userId ∧
    calculateCompletenessScore salesOperandA =
      calculateCompletenessScore salesOperandB ∧
    ("p1") ∈ (salesOperandA.salesAttributions ++
      salesOperandB.salesAttributions).map SalesAttribution.programId ∧
    (mergeUsers salesOperandA salesOperandB).salesAttributions.filter
        (fun a => a.programId == ("p1")) =
      [{ programId := ("p1")
         amount :=
           ((salesOperandA.salesAttributions.filter
              (fun a => a.programId == ("p1"))).map
             SalesAttribution.amount).sum +
           ((salesOperandB.salesAttributions.filter
              (fun a => a.programId == ("p1"))).map
             SalesAttribution.amount).sum }] :=
  ⟨rfl, by decide, by decide,
    mergeSalesSum salesOperandA salesOperandB ("p1") rfl (by decide)
      (by decide)⟩

/-- C6: when two entities with the same identifier and equal completeness
scores are merged and each operand carries exactly one post with a given
`postId`, the merged result carries exactly one post with that `postId`:
the second operand wins only with a strictly higher engagement, the
first operand wins on ties. -/
theorem mergePostsHigherEngagement (u1 u2 : User) (pid : String)
    (p1 p2 : SocialPost)
    (hid : u1.userId = u2.userId)
    (hsc : calculateCompletenessScore u1 = calculateCompletenessScore u2)
    (h1 : u1.posts.filter (fun p => p.postId == pid) = [p1])
    (h2 : u2.posts.filter (fun p => p.postId == pid) = [p2]) :
    (mergeUsers u1 u2).posts.filter (fun p => p.postId == pid) =
      [if p2.engagement > p1.engagement then p2 else p1] := by
  have hmerge :
      (mergeUsers u1 u2).posts = deduplicatePosts (u1.posts ++ u2.posts) :=
    rfl
  rw [hmerge]
  unfold deduplicatePosts
  set ps := u1.posts ++ u2.posts with hps
  have hnd : (mapKeys (ps.foldl postsStep [])).Nodup :=
    postsFold_nodup ps [] (by simp [mapKeys])
  have hinv : ∀ e ∈ ps.foldl postsStep [], e.2.postId = e.1 :=
    postsFold_inv ps [] (by simp)
  rw [filter_map_assoc Prod.snd SocialPost.postId _ pid
    (fun e he => hinv e he) hnd]
  rw [postsFold_get ps [] pid]
  have hget : mapGet ([] : List (String × SocialPost)) pid = none := rfl
  rw [hget, postSel_foldl_filter pid ps none]
  have hsplit :
      ps.filter (fun p => p.postId == pid) = [p1] ++ [p2] := by
    rw [hps, List.filter_append, h1, h2]
  rw [hsplit]
  by_cases heng : p2.engagement > p1.engagement
  · simp [postPick, heng]
  · simp [postPick, heng]

/-- Low-engagement post for the C6 witness. -/
def engagementLowPost : SocialPost :=
  { postId := ("t1"), platform := ("instagram"), url := none, likes := 1,
    comments := 0, shares := 0, reach := 0, engagement := 1 }

/-- High-engagement post for the C6 witness, same `postId`. -/
def engagementHighPost : SocialPost :=
  { postId := ("t1"), platform := ("instagram"), url := none, likes := 5,
    comments := 0, shares := 0, reach := 0, engagement := 5 }

/-- First operand for the C6 witness. -/
def postsOperandA : User :=
  { userId := ("n"), name := none, email := none, socialHandles := [],
    programs := [], posts := [engagementLowPost], salesAttributions := [],
    joinDate := none, totalEngagement := 0, totalSales := 0 }

/-- Second operand for the C6 witness, same score, higher engagement. -/
def postsOperandB : User :=
  { postsOperandA with posts := [engagementHighPost] }

/-- Witness for C6 at a concrete pair of entities sharing post `t1`. -/
theorem mergePostsHigherEngagement_witness :
    postsOperandA.userId = postsOperandB.userId ∧
    calculateCompletenessScore postsOperandA =
      calculateCompletenessScore postsOperandB ∧
    postsOperandA.posts.filter (fun p => p.postId == ("t1")) =
      [engagementLowPost] ∧
    postsOperandB.posts.filter (fun p => p.postId == ("t1")) =
      [engagementHighPost] ∧
    (mergeUsers postsOperandA postsOperandB).posts.filter
        (fun p => p.postId == ("t1")) =
      [if engagementHighPost.engagement > engagementLowPost.engagement then
        engagementHighPost else engagementLowPost] :=
  ⟨rfl, by decide, by decide, by decide,
    mergePostsHigherEngagement postsOperandA postsOperandB ("t1")
      engagementLowPost engagementHighPost rfl (by decide) (by decide)
      (by decide)⟩

/-- C8 counterexample: the claim reads the threshold as a bound on the
magnitude. On the numeric value 0 the claim predicts epoch seconds
(a date at 0), but the falsy guard of `parseTimestamp` yields no date;
on the numeric value -20000000000, whose magnitude exceeds the threshold,
the claim predicts epoch milliseconds (-20000000000), but the signed
comparison of the code multiplies by 1000 instead. -/
theorem parseTimestampClaimFalse :
    parseTimestamp (fun _ => none) (some (RawDate.num 0)) = none ∧
    parseTimestamp (fun _ => none) (some (RawDate.num (-20000000000))) =
      some (-20000000000000) ∧
    ¬ parseTimestamp (fun _ => none) (some (RawDate.num (-20000000000))) =
      some (-20000000000) := by
  refine ⟨rfl, by decide, by decide⟩

/-- C8 amended: a nonzero numeric value strictly greater than
10,000,000,000 (signed comparison, not magnitude) is taken as epoch
milliseconds and every other nonzero numeric value — negative values of
any magnitude included — as epoch seconds; the numeric value 0 and the
empty string are falsy and yield no join date; a non-empty string goes
through general date parsing; a Date instance passes through; an absent
value or an unparsable string yields no join date rather than an error. -/
theorem parseTimestampAmended (dateParse : String → Option Int) (n : Int)
    (s : String) (millis : Int) (hn : n ≠ 0) (hs : s ≠ "") :
    parseTimestamp dateParse (some (RawDate.num n)) =
      some (if n > 10000000000 then n else n * 1000) ∧
    parseTimestamp dateParse (some (RawDate.num 0)) = none ∧
    parseTimestamp dateParse (some (RawDate.str s)) = dateParse s ∧
    parseTimestamp dateParse (some (RawDate.str (""))) = none ∧
    parseTimestamp dateParse (some (RawDate.date millis)) = some millis ∧
    parseTimestamp dateParse none = none := by
  refine ⟨?_, rfl, ?_, rfl, rfl, rfl⟩
  · simp [parseTimestamp, rawDateTruthy, hn]
  · simp [parseTimestamp, rawDateTruthy, hs]

/-- Witness for the amended C8 at concrete inputs. -/
theorem parseTimestampAmended_witness :
    (-20000000000 : Int) ≠ 0 ∧ ("x") ≠ "" ∧
    (parseTimestamp (fun _ => some 7) (some (RawDate.num (-20000000000))) =
      some (if (-20000000000 : Int) > 10000000000 then (-20000000000 : Int)
        else (-20000000000) * 1000) ∧
    parseTimestamp (fun _ => some 7) (some (RawDate.num 0)) = none ∧
    parseTimestamp (fun _ => some 7) (some (RawDate.str ("x"))) = some 7 ∧
    parseTimestamp (fun _ => some 7) (some (RawDate.str (""))) = none ∧
    parseTimestamp (fun _ => some 7) (some (RawDate.date 5)) = some 5 ∧
    parseTimestamp (fun _ => some 7) none = none) :=
  ⟨by decide, by decide,
    parseTimestampAmended (fun _ => some 7) (-20000000000) ("x") 5
      (by decide) (by decide)⟩

/-- Concrete entity for the C1 counterexample: one sales attribution of
amount 50. -/
def selfMergeUser : User :=
  { userId := ("u1"), name := none, email := none, socialHandles := [],
    programs := [], posts := [],
    salesAttributions := [{ programId := ("p1"), amount := 50 }],
    joinDate := none, totalEngagement := 0, totalSales := 50 }

/-- C1 counterexample: deduplication is not idempotent. Feeding two copies
of the same entity to `deduplicateUsers` takes the equal-score merge
branch, and the merge concatenates the two identical attribution lists
before summing per `programId`: every amount doubles. The recomputed
entity has the attribution amount 100 and `totalSales` 100 where the
original had 50, so neither the attribution set nor the recomputed total
matches the original. -/
theorem dedupIdemFalse :
    (deduplicateUsers [selfMergeUser, selfMergeUser]).map recalculateTotals =
      [recalculateTotals (mergeUsers selfMergeUser selfMergeUser)] ∧
    selfMergeUser.salesAttributions =
      [{ programId := ("p1"), amount := 50 }] ∧
    selfMergeUser.totalSales = 50 ∧
    (recalculateTotals
        (mergeUsers selfMergeUser selfMergeUser)).salesAttributions =
      [{ programId := ("p1"), amount := 100 }] ∧
    (recalculateTotals (mergeUsers selfMergeUser selfMergeUser)).totalSales =
      100 := by
  refine ⟨by decide, rfl, rfl, by decide, by decide⟩

/-- C1 amended: merging an entity `A` with itself (the equal-score branch
applies, both copies scoring alike) and recomputing totals reproduces the
`socialHandles`, `programs` and `posts` lists exactly and recomputes
`totalEngagement` as the sum of the posts of `A` — provided the handle
keys, program identifiers, post identifiers and attribution program
identifiers of `A` are pairwise distinct — but it does NOT reproduce the
sales: every attribution amount is doubled, and `totalSales` is twice the
sum of the attribution amounts of `A`. Idempotence holds for every
component except the sales attributions and `totalSales`. -/
theorem dedupSelfMergeAmended (A : User)
    (hh : (A.socialHandles.map handleKey).Nodup)
    (hp : (A.programs.map Program.programId).Nodup)
    (ht : (A.posts.map SocialPost.postId).Nodup)
    (hs : (A.salesAttributions.map SalesAttribution.programId).Nodup) :
    (recalculateTotals (mergeUsers A A)).socialHandles = A.socialHandles ∧
    (recalculateTotals (mergeUsers A A)).programs = A.programs ∧
    (recalculateTotals (mergeUsers A A)).posts = A.posts ∧
    (recalculateTotals (mergeUsers A A)).salesAttributions =
      A.salesAttributions.map
        (fun a =>
          ({ programId := a.programId, amount := a.amount + a.amount } :
            SalesAttribution)) ∧
    (recalculateTotals (mergeUsers A A)).totalEngagement =
      (A.posts.map SocialPost.engagement).sum ∧
    (recalculateTotals (mergeUsers A A)).totalSales =
      (A.salesAttributions.map SalesAttribution.amount).sum +
        (A.salesAttributions.map SalesAttribution.amount).sum := by
  have hhandles :
      deduplicateSocialHandles (A.socialHandles ++ A.socialHandles) =
        A.socialHandles := by
    unfold deduplicateSocialHandles
    rw [List.foldl_append,
      keepFirst_build handleKey A.socialHandles [] hh (fun x hx => rfl),
      List.nil_append,
      keepFirst_skip handleKey A.socialHandles _ (fun x hx => by
        rw [mapGet_isSome_iff, mapKeys_build]
        exact List.mem_map_of_mem handleKey hx),
      map_snd_build]
  have hprograms :
      deduplicatePrograms (A.programs ++ A.programs) = A.programs := by
    unfold deduplicatePrograms
    rw [List.foldl_append,
      keepFirst_build Program.programId A.programs [] hp (fun x hx => rfl),
      List.nil_append,
      keepFirst_skip Program.programId A.programs _ (fun x hx => by
        rw [mapGet_isSome_iff, mapKeys_build]
        exact List.mem_map_of_mem Program.programId hx),
      map_snd_build]
  have hposts : deduplicatePosts (A.posts ++ A.posts) = A.posts := by
    unfold deduplicatePosts
    rw [List.foldl_append,
      postsFold_build A.posts [] ht (fun p hp' => rfl),
      List.nil_append,
      postsFold_skip A.posts _ (fun p hp' =>
        ⟨p, mapGet_buildList SocialPost.postId A.posts p ht hp',
          lt_irrefl _⟩),
      map_snd_build SocialPost.postId]
  have hsales :
      deduplicateSalesAttributions
          (A.salesAttributions ++ A.salesAttributions) =
        A.salesAttributions.map
          (fun a =>
            ({ programId := a.programId, amount := a.amount + a.amount } :
              SalesAttribution)) := by
    unfold deduplicateSalesAttributions
    rw [List.foldl_append,
      salesFold_build A.salesAttributions [] hs (fun a ha => rfl),
      List.nil_append]
    have hdouble :=
      salesFold_double A.salesAttributions [] hs (fun a ha => rfl)
    simp only [List.nil_append] at hdouble
    rw [hdouble, List.map_map]
    rfl
  refine ⟨?_, ?_, ?_, ?_, ?_, ?_⟩
  · simp only [recalculateTotals, mergeUsers]
    exact hhandles
  · simp only [recalculateTotals, mergeUsers]
    exact hprograms
  · simp only [recalculateTotals, mergeUsers]
    exact hposts
  · simp only [recalculateTotals, mergeUsers]
    exact hsales
  · simp only [recalculateTotals, mergeUsers]
    rw [hposts, foldl_add_sum]
    simp
  · simp only [recalculateTotals, mergeUsers]
    rw [hsales, foldl_add_sum, List.map_map]
    have hcomp :
        (SalesAttribution.amount ∘ fun a =>
          ({ programId := a.programId, amount := a.amount + a.amount } :
            SalesAttribution)) =
          fun a => SalesAttribution.amount a + SalesAttribution.amount a :=
      rfl
    rw [hcomp, sum_map_add SalesAttribution.amount SalesAttribution.amount]
    simp

/-- Handle of `richUser` on instagram. -/
def richHandleA : SocialHandle :=
  { platform := ("instagram"), handle := ("foo") }

/-- Handle of `richUser` on tiktok, distinct key, same handle text. -/
def richHandleB : SocialHandle :=
  { platform := ("tiktok"), handle := ("foo") }

/-- The single post of `richUser`. -/
def richPost : SocialPost :=
  { postId := ("rp"), platform := ("other"), url := none, likes := 2,
    comments := 1, shares := 0, reach := 9, engagement := 3 }

/-- Rich concrete entity for the C1 witness: distinct keys everywhere. -/
def richUser : User :=
  { userId := ("r"), name := some ("Ann"), email := none,
    socialHandles := [richHandleA, richHandleB],
    programs := [{ programId := ("p1"), programName := ("Acme") }],
    posts := [richPost],
    salesAttributions := [{ programId := ("p1"), amount := 50 },
      { programId := ("p2"), amount := 7 }],
    joinDate := some 123, totalEngagement := 3, totalSales := 57 }

/-- Witness for the amended C1 at a concrete entity. -/
theorem dedupSelfMergeAmended_witness :
    (richUser.socialHandles.map handleKey).Nodup ∧
    (richUser.programs.map Program.programId).Nodup ∧
    (richUser.posts.map SocialPost.postId).Nodup ∧
    (richUser.salesAttributions.map SalesAttribution.programId).Nodup ∧
    ((recalculateTotals (mergeUsers richUser richUser)).socialHandles =
        richUser.socialHandles ∧
      (recalculateTotals (mergeUsers richUser richUser)).programs =
        richUser.programs ∧
      (recalculateTotals (mergeUsers richUser richUser)).posts =
        richUser.posts ∧
      (recalculateTotals (mergeUsers richUser richUser)).salesAttributions =
        richUser.salesAttributions.map
          (fun a =>
            ({ programId := a.programId, amount := a.amount + a.amount } :
              SalesAttribution)) ∧
      (recalculateTotals (mergeUsers richUser richUser)).totalEngagement =
        (richUser.posts.map SocialPost.engagement).sum ∧
      (recalculateTotals (mergeUsers richUser richUser)).totalSales =
        (richUser.salesAttributions.map SalesAttribution.amount).sum +
          (richUser.salesAttributions.map SalesAttribution.amount).sum) :=
  ⟨by decide, by decide, by decide, by decide,
    dedupSelfMergeAmended richUser (by decide) (by decide) (by decide)
      (by decide)⟩

/-- C7: `transformPrograms` keeps a raw entry exactly when the coerced
brand (the string itself when truthy, the placeholder otherwise) is
non-blank and differs from the literal `Unknown Program` — that is, when
the raw brand is present, non-empty and not the placeholder text — and
dropping a program from the `programs` list does not touch its nested
posts and sales: those extractions read only `tasks_completed`,
`program_id` and `total_sales_attributed`, so rewriting every brand
arbitrarily leaves `posts` and `salesAttributions` unchanged. -/
theorem programsKeptIff (gen : String) (dateParse : String → Option Int)
    (ps : List RawProgram) (program : RawProgram) (raw : RawUser)
    (f : Option String → Option String) :
    transformPrograms gen (some ps) =
      (ps.filter brandKept).map (transformOneProgram gen) ∧
    (brandKept program = true ↔
      ∃ brand, program.brand = some brand ∧ brand ≠ "" ∧
        brand ≠ ("Unknown Program")) ∧
    (transformUser gen dateParse (mapBrands f raw)).posts =
      (transformUser gen dateParse raw).posts ∧
    (transformUser gen dateParse (mapBrands f raw)).salesAttributions =
      (transformUser gen dateParse raw).salesAttributions := by
  refine ⟨transformPrograms_eq_filter_map gen ps, ?_, ?_, ?_⟩
  · cases hb : program.brand with
    | none => simp [brandKept, hb]
    | some brand => simp [brandKept, hb]
  · cases hprogs : raw.advocacy_programs with
    | none => simp [transformUser, mapBrands, hprogs]
    | some advocacyPrograms =>
      simp [transformUser, mapBrands, hprogs, extractPosts_mapBrands]
  · cases hprogs : raw.advocacy_programs with
    | none => simp [transformUser, mapBrands, hprogs]
    | some advocacyPrograms =>
      simp [transformUser, mapBrands, hprogs, extractSales_mapBrands]

end Duel
